import Mathlib

/-!
Verification of the single-instrument trading client.

Shallow embedding of the order ledger (`order_manager.py`), the strategy
state machine (`strategy.py`), the market subscription check
(`market_manager.py`) and the decimal/quotation codec (`utils.py`).

Modelling conventions:
* Python `Decimal` prices are modelled as exact rationals (`ℚ`).
* Broker order ids (strings) are modelled as `Nat`.
* An uncaught Python exception (`StopIteration` from `next`, an
  `IndexError` from `[0]`, or an `assert` failure) is modelled by an
  `Option` result being `none`; a function that catches its exception
  (`Orders.process_get_order`) is modelled as a total function instead.
* In-place mutation of an `Order` object found by a `next(filter(...))`
  scan is modelled by rewriting the first list entry satisfying the same
  predicate (`updFirst`), which is exactly the object Python mutates.
* Python `Decimal` arithmetic is exact integer arithmetic followed by
  rounding to the default context of 28 significant digits with
  ROUND_HALF_EVEN; `ctxRound` models that rounding and is applied to
  every arithmetic result of the codec, as the interpreter does.
* The float-based sanity `assert` of `decimal_to_quotation` converts its
  operands to IEEE-754 binary doubles; the conversion's OverflowError is
  modelled (`decimalToQuotation` returns `none` beyond the double
  range), while the bit-level comparison of two doubles is outside this
  embedding (see the doc comment of `decimalToQuotation`).
-/

/-- Python `Side(IntEnum)`: BUY = 1, SELL = -1. -/
inductive Side where
  | BUY
  | SELL
deriving DecidableEq, Repr

/-- The integer value of the `IntEnum` member, used by the source as a
price-comparison multiplier and position delta sign. -/
def sideSign : Side → ℤ
  | Side.BUY => 1
  | Side.SELL => -1

/-- The `OrderStatus` enum: PENDING → OPEN → FILLED, plus CANCELLED. -/
inductive OrderStatus where
  | PENDING
  | OPEN
  | FILLED
  | CANCELLED
deriving DecidableEq, Repr

/-- Source `OrderStatus.is_active`: `self not in [FILLED, CANCELLED]`. -/
def OrderStatus.isActive : OrderStatus → Bool
  | OrderStatus.FILLED => false
  | OrderStatus.CANCELLED => false
  | _ => true

/-- The `Order` dataclass: qty, px, side, status, optional broker id. -/
structure Order where
  qty : ℕ
  px : ℚ
  side : Side
  status : OrderStatus
  id : Option ℕ := none
deriving DecidableEq, Repr

/-- The `NewOrder` dataclass (limit order request). -/
structure NewOrder where
  qty : ℕ
  px : ℚ
  side : Side
deriving DecidableEq, Repr

/-- The `OrderEventType` enum. -/
inductive OrderEventType where
  | PENDING
  | OPEN
  | FILLED
  | CANCELLED
deriving DecidableEq, Repr

/-- The `OrderEvent` dataclass. -/
structure OrderEvent where
  event_type : OrderEventType
  order : Order
deriving DecidableEq, Repr

/-- The broker's fixed-point `Quotation`: integer units and nano fraction. -/
structure Quot9 where
  units : ℤ
  nano : ℤ
deriving DecidableEq, Repr

/-- Python `int(q)` on a Decimal/rational: truncation toward zero. -/
def intTrunc (q : ℚ) : ℤ := q.num.tdiv (q.den : ℤ)

/-- Banker's rounding to an integer: ROUND_HALF_EVEN, the rounding mode
of Python's default Decimal context. -/
def roundHalfEven (q : ℚ) : ℤ :=
  if q - ⌊q⌋ < 1 / 2 then ⌊q⌋
  else if 1 / 2 < q - ⌊q⌋ then ⌊q⌋ + 1
  else if 2 ∣ ⌊q⌋ then ⌊q⌋ else ⌊q⌋ + 1

/-- Rounding of every Python Decimal arithmetic result under the default
context: the value is kept to 28 significant decimal digits, rounding
half to even.  A nonzero value with adjusted exponent `a`
(`10^a ≤ |q| < 10^(a+1)`) is rounded at scale `a - 27`. -/
def ctxRound (q : ℚ) : ℚ :=
  if q = 0 then 0
  else
    (roundHalfEven (q / 10 ^ (Int.log 10 |q| - 27)) : ℚ)
      * 10 ^ (Int.log 10 |q| - 27)

/-- Smallest magnitude at which CPython's int/Decimal → float conversion
overflows: values of absolute value at least `2^1024 - 2^970` round to
infinity and raise OverflowError. -/
def floatOverflowBound : ℚ := 2 ^ 1024 - 2 ^ 970

/-- Source `quotation_to_decimal`: `Decimal(units) + Decimal(nano) / int(1e9)`.
The `Decimal(int)` constructions are exact; the division and the addition
are each rounded by the default 28-digit context (`ctxRound`). -/
def quotationToDecimal (q : Quot9) : ℚ :=
  ctxRound ((q.units : ℚ) + ctxRound ((q.nano : ℚ) / (10 ^ 9 : ℚ)))

/-- Source `decimal_to_quotation`: `units = int(value)` (exact),
`nano = int((value - units) * int(1e9))` with the subtraction and the
multiplication context-rounded, then
`assert abs(float(value) - quotation_to_float(result)) < EPS`.

`none` models the assert line raising OverflowError: its float
conversions overflow for `|value| ≥ 2^1024 - 2^970`.  For in-range
values the assert compares two correctly rounded binary doubles of the
same real number; that bit-level comparison is outside this embedding
and is modelled as succeeding.  It provably holds for `|value| < 2^53`,
where the integer part is exactly representable as a double (the C8
theorem stays in that range), and it holds at the C8 counterexample
value `10^30 + 0.123456789`, where the fraction is absorbed below one
double ulp so both conversions agree exactly; it can genuinely fail in
between (the source raises AssertionError at `2^53 + 1.123456789`). -/
def decimalToQuotation (v : ℚ) : Option Quot9 :=
  let units := intTrunc v
  let nano := intTrunc (ctxRound (ctxRound (v - (units : ℚ)) * (10 ^ 9 : ℚ)))
  if |v| < floatOverflowBound then some { units := units, nano := nano }
  else none

/-- The `Orders.by_side` ledger: the ledger, one ordered list of orders per side. -/
structure Orders where
  buy : List Order
  sell : List Order
deriving DecidableEq

/-- Lookup of `self.by_side[side]`. -/
def sideList (L : Orders) : Side → List Order
  | Side.BUY => L.buy
  | Side.SELL => L.sell

/-- Replace one side's list, leaving the other untouched. -/
def setSideList (L : Orders) : Side → List Order → Orders
  | Side.BUY, l => { L with buy := l }
  | Side.SELL, l => { L with sell := l }

/-- Source `Orders.get_all_orders`: buy side followed by sell side. -/
def getAllOrders (L : Orders) : List Order := L.buy ++ L.sell

/-- Source `Orders.is_any_pending`. -/
def isAnyPending (L : Orders) : Bool :=
  (getAllOrders L).any (fun o => decide (o.status = OrderStatus.PENDING))

/-- Source `Orders.clear_inactive_orders` (the spec's `purge_terminal`): keep
only active orders on each side. -/
def clearInactiveOrders (L : Orders) : Orders :=
  { buy := L.buy.filter (fun o => o.status.isActive),
    sell := L.sell.filter (fun o => o.status.isActive) }

/-- Sort key of `Orders._insert_order`: `order.px * order.side`,
sorted descending (`reverse=True`). -/
def orderKey (o : Order) : ℚ := o.px * (sideSign o.side : ℚ)

/-- Comparison of the stable descending sort: `a` may precede `b` when
its key is at least as large. -/
def orderKeyGe (a b : Order) : Bool := decide (orderKey b ≤ orderKey a)

/-- Source `Orders._insert_order`: append the new order, then stable-sort the
side from best price to worst (Python `list.sort` is stable). -/
def insertOrder (l : List Order) (o : Order) : List Order :=
  (l ++ [o]).mergeSort orderKeyGe

/-- Source `Orders.create_pending_order` (the spec's `create_pending`). -/
def createPendingOrder (L : Orders) (req : NewOrder) : OrderEvent × Orders :=
  let o : Order :=
    { qty := req.qty, px := req.px, side := req.side,
      status := OrderStatus.PENDING, id := none }
  ({ event_type := OrderEventType.PENDING, order := o },
   setSideList L req.side (insertOrder (sideList L req.side) o))

/-- Source `Orders.process_pending_cancel` (the spec's `mark_cancel_pending`)
acting on the ledger order at index `i` of side `s`: the Python
`CancelOrder` request holds a reference to that order object, and the
status write happens through the reference. -/
def processPendingCancel (L : Orders) (s : Side) (i : ℕ) :
    Option (OrderEvent × Orders) :=
  match (sideList L s)[i]? with
  | none => none
  | some o =>
      let o' := { o with status := OrderStatus.PENDING }
      some ({ event_type := OrderEventType.PENDING, order := o' },
            setSideList L s ((sideList L s).set i o'))

/-- Source `Orders.process_cancel_order_response` (the spec's
`reconcile_cancel_response`) acting on the ledger order at index `i` of
side `s`: sets CANCELLED unconditionally. -/
def processCancelOrderResponse (L : Orders) (s : Side) (i : ℕ) :
    Option (OrderEvent × Orders) :=
  match (sideList L s)[i]? with
  | none => none
  | some o =>
      let o' := { o with status := OrderStatus.CANCELLED }
      some ({ event_type := OrderEventType.CANCELLED, order := o' },
            setSideList L s ((sideList L s).set i o'))

/-- Rewrite the first element satisfying `p`: the object that Python's
`next(filter(p, l))` returns and the caller then mutates in place. -/
def updFirst (p : α → Bool) (f : α → α) : List α → List α
  | [] => []
  | x :: xs => if p x then f x :: xs else x :: updFirst p f xs

/-- The fields of `inv.PostOrderResponse` the ledger reads.  The
direction is modelled after `Side.from_direction`; the broker id as a
number. -/
structure PostOrderResponse where
  direction : Side
  initial_security_price : Quot9
  lots_requested : ℕ
  lots_executed : ℕ
  order_id : ℕ
deriving DecidableEq

/-- The fields of `inv.OrderState` that `process_get_order` reads. -/
structure OrderState where
  direction : Side
  order_id : ℕ
  lots_executed : ℕ
deriving DecidableEq

/-- The matching predicate of `Orders._find_order_by_side_px_qty`:
price and quantity only — the status is not inspected. -/
def matchPxQty (px : ℚ) (qty : ℕ) (o : Order) : Bool :=
  decide (o.px = px) && decide (o.qty = qty)

/-- The matching predicate of `Orders._find_order_by_id`. -/
def matchId (order_id : ℕ) (o : Order) : Bool :=
  decide (o.id = some order_id)

/-- The mutation `process_post_order_response` performs on the matched
order: assign the broker id; FILLED when fully executed, else OPEN. -/
def postUpd (resp : PostOrderResponse) (o : Order) : Order :=
  { o with
    id := some resp.order_id,
    status := if o.qty = resp.lots_executed then OrderStatus.FILLED
              else OrderStatus.OPEN }

/-- Source `Orders.process_post_order_response` (the spec's
`reconcile_post_response`).  `none` models the uncaught `StopIteration`
raised by `next` when no order on the side matches price+quantity. -/
def processPostOrderResponse (L : Orders) (resp : PostOrderResponse) :
    Option (OrderEvent × Orders) :=
  let px := quotationToDecimal resp.initial_security_price
  let l := sideList L resp.direction
  match l.find? (matchPxQty px resp.lots_requested) with
  | none => none
  | some o =>
      let o' := postUpd resp o
      some ({ event_type :=
                if o'.status = OrderStatus.OPEN then OrderEventType.OPEN
                else OrderEventType.FILLED,
              order := o' },
            setSideList L resp.direction
              (updFirst (matchPxQty px resp.lots_requested) (postUpd resp) l))

/-- Source `Orders.process_get_order` (the spec's `reconcile_status_poll`).
Total: the lookup failure is caught, logged and treated as no event.
Returns the optional event together with the updated ledger. -/
def processGetOrder (L : Orders) (resp : OrderState) :
    Option OrderEvent × Orders :=
  let l := sideList L resp.direction
  match l.find? (matchId resp.order_id) with
  | none => (none, L)
  | some o =>
      if o.qty = resp.lots_executed then
        (some { event_type := OrderEventType.FILLED,
                order := { o with status := OrderStatus.FILLED } },
         setSideList L resp.direction
           (updFirst (matchId resp.order_id)
             (fun a => { a with status := OrderStatus.FILLED }) l))
      else (none, L)

/-- The strategy `Action` enum (renamed: `Action` exists in the ambient library). -/
inductive StratAction where
  | BUY
  | SELL
  | WAIT
deriving DecidableEq

/-- Source `Action.get_side`; `none` models the `assert False` branch. -/
def StratAction.getSide : StratAction → Option Side
  | StratAction.BUY => some Side.BUY
  | StratAction.SELL => some Side.SELL
  | StratAction.WAIT => none

/-- One level of the order book. -/
structure Quote where
  px : ℚ
  qty : ℕ
deriving DecidableEq

/-- The order book snapshot held by the market manager. -/
structure OrderBook where
  bids : List Quote
  asks : List Quote
deriving DecidableEq

/-- Best price: `ob.bids[0].px` for BUY, `ob.asks[0].px` for SELL; `none` models the
`IndexError` on an empty side. -/
def bestPx (s : Side) (ob : OrderBook) : Option ℚ :=
  match s with
  | Side.BUY => ob.bids.head?.map Quote.px
  | Side.SELL => ob.asks.head?.map Quote.px

/-- A request the strategy pushes into the order manager's queue. -/
inductive Request where
  | post (o : NewOrder)
  | cancel (o : Order)
deriving DecidableEq

/-- Source `Strategy.buy_or_sell_action`: recompute the action from the
position (BUY when flat, else SELL), build a single-lot order at the best
price on that side, post it, and move to WAIT.  Returns the final action
and the posted order. -/
def buyOrSellAction (posQty : ℤ) (ob : OrderBook) :
    Option (StratAction × NewOrder) := do
  let action := if posQty = 0 then StratAction.BUY else StratAction.SELL
  let side ← action.getSide
  let px ← bestPx side ob
  pure (StratAction.WAIT, { qty := 1, px := px, side := side })

/-- Source `Strategy.possible_cancel_action`: asserts exactly one order in the
ledger (`none` models the assertion failure), then requests a cancel
when `order.side * order.px < order.side * ob_px`. -/
def possibleCancelAction (L : Orders) (ob : OrderBook) :
    Option (List Request) :=
  match getAllOrders L with
  | [o] => (bestPx o.side ob).map (fun obPx =>
      if (sideSign o.side : ℚ) * o.px < (sideSign o.side : ℚ) * obPx then
        [Request.cancel o]
      else [])
  | _ => none

/-- Source `Strategy.on_orderbook_update`: returns the strategy's new action
and the requests pushed to the order manager. -/
def onOrderbookUpdate (action : StratAction) (posQty : ℤ) (L : Orders)
    (ob : OrderBook) : Option (StratAction × List Request) :=
  if isAnyPending L then some (action, [])
  else
    match action with
    | StratAction.WAIT =>
        (possibleCancelAction L ob).map (fun reqs => (StratAction.WAIT, reqs))
    | _ => (buyOrSellAction posQty ob).map (fun r => (r.1, [Request.post r.2]))

/-- Source `Strategy.on_order_event`. -/
def onOrderEvent (action : StratAction) (posQty : ℤ) (ob : OrderBook)
    (ev : OrderEvent) : Option (StratAction × List Request) :=
  if ev.event_type = OrderEventType.FILLED ∨
     ev.event_type = OrderEventType.CANCELLED then
    (buyOrSellAction posQty ob).map (fun r => (r.1, [Request.post r.2]))
  else some (action, [])

/-- Source `Position.update_by_filled_order`: `qty += order.qty * order.side`. -/
def updateByFilledOrder (posQty : ℤ) (o : Order) : ℤ :=
  posQty + (o.qty : ℤ) * sideSign o.side

/-- Source `OrderManager._notify_strategy`: on a non-`None` event, update the
position when the event is FILLED, notify the strategy (which may queue
new requests reading the already-updated position), then purge terminal
orders.  Returns the strategy action, ledger, position, and queued
requests. -/
def notifyStrategy (action : StratAction) (ob : OrderBook) (L : Orders)
    (posQty : ℤ) (ev : Option OrderEvent) :
    Option (StratAction × Orders × ℤ × List Request) :=
  match ev with
  | none => some (action, L, posQty, [])
  | some e =>
      let pos' :=
        if e.event_type = OrderEventType.FILLED then
          updateByFilledOrder posQty e.order
        else posQty
      (onOrderEvent action pos' ob e).map
        (fun r => (r.1, clearInactiveOrders L, pos', r.2))

/-- Source `MarketManager.subscribe` depth check; `none` models the failure of
`assert orderbook_depth in [1, 10, 20, 30, 40, 50]`. -/
def marketSubscribe (depth : ℕ) : Option ℕ :=
  if depth ∈ [1, 10, 20, 30, 40, 50] then some depth else none

/-- The action computed by `Strategy.__init__`; `none` models the
failure of `assert om.position.qty in [0, 1]`. -/
def strategyInitAction (posQty : ℤ) : Option StratAction :=
  if posQty ∈ ([0, 1] : List ℤ) then
    some (if posQty = 0 then StratAction.BUY else StratAction.SELL)
  else none

/-- The ledger invariant: a side's sequence is sorted by non-increasing
`side * price`. -/
def sortedSide (l : List Order) : Prop :=
  l.Pairwise (fun a b => orderKey b ≤ orderKey a)

/-- Both sides of the ledger satisfy the sortedness invariant. -/
def sortedLedger (L : Orders) : Prop := sortedSide L.buy ∧ sortedSide L.sell

/-- The only admissible position change per notification:
`order.qty * side` on a FILLED event, zero otherwise. -/
def posDelta : Option OrderEvent → ℤ
  | some e =>
      if e.event_type = OrderEventType.FILLED then
        (e.order.qty : ℤ) * sideSign e.order.side
      else 0
  | none => 0

theorem intTrunc_intCast (m : ℤ) : intTrunc (m : ℚ) = m := by
  simp [intTrunc]

theorem intTrunc_of_nonneg {q : ℚ} (h : 0 ≤ q) : intTrunc q = ⌊q⌋ := by
  rw [Rat.floor_def]
  exact Int.tdiv_eq_ediv (Rat.num_nonneg.mpr h) (Int.ofNat_nonneg _)

theorem intTrunc_neg (q : ℚ) : intTrunc (-q) = -intTrunc q := by
  simp [intTrunc, Rat.neg_num, Rat.neg_den, Int.neg_tdiv]

theorem abs_sub_intTrunc_lt_one (q : ℚ) : |q - (intTrunc q : ℚ)| < 1 := by
  rcases le_or_lt 0 q with h | h
  · rw [intTrunc_of_nonneg h,
      abs_of_nonneg (sub_nonneg.mpr (Int.floor_le q))]
    have := Int.lt_floor_add_one q
    linarith
  · have h' : 0 ≤ -q := by linarith
    rw [show q = -(-q) from by ring, intTrunc_neg, intTrunc_of_nonneg h']
    rw [show -(-q) - ((-⌊-q⌋ : ℤ) : ℚ) = -(-q - (⌊-q⌋ : ℚ)) from by push_cast; ring,
      abs_neg, abs_of_nonneg (sub_nonneg.mpr (Int.floor_le (-q)))]
    have := Int.lt_floor_add_one (-q)
    linarith

theorem roundHalfEven_intCast (n : ℤ) : roundHalfEven (n : ℚ) = n := by
  norm_num [roundHalfEven]

theorem ctxRound_zero : ctxRound 0 = 0 := by
  simp [ctxRound]

theorem ctxRound_eq_self {q : ℚ} {k : ℕ} {m : ℤ} (hm : q * 10 ^ k = (m : ℚ))
    (hlt : |m| < 10 ^ 28) : ctxRound q = q := by
  by_cases h0 : q = 0
  · simp [ctxRound, h0]
  · have h10 : (10 : ℚ) ≠ 0 := by norm_num
    have hq0 : (0 : ℚ) < |q| := abs_pos.mpr h0
    have hub : |q| < (10 : ℚ) ^ ((28 : ℤ) - k) := by
      have h1 : |q| * 10 ^ k < 10 ^ 28 := by
        rw [← abs_of_pos (show (0 : ℚ) < 10 ^ k from by positivity), ← abs_mul,
          hm, ← Int.cast_abs]
        exact_mod_cast hlt
      have h2 : (10 : ℚ) ^ ((28 : ℤ) - k) = 10 ^ (28 : ℕ) / 10 ^ (k : ℕ) := by
        rw [zpow_sub₀ h10]
        norm_num
      rw [h2, lt_div_iff₀ (by positivity)]
      exact h1
    obtain ⟨a, ha⟩ : ∃ a, Int.log 10 |q| = a := ⟨_, rfl⟩
    have hlog : a < (28 : ℤ) - k := by
      rw [← ha]
      exact (Int.lt_zpow_iff_log_lt (by norm_num) hq0).mp hub
    have he : (0 : ℤ) ≤ 27 - a - k := by omega
    have hqm : q = (m : ℚ) / 10 ^ k := by
      rw [eq_div_iff (by positivity)]
      exact hm
    have harg : q / (10 : ℚ) ^ (a - 27)
        = ((m * 10 ^ (27 - a - k).toNat : ℤ) : ℚ) := by
      rw [div_eq_iff (zpow_ne_zero _ h10), hqm,
        div_eq_iff (show (10 : ℚ) ^ k ≠ 0 from by positivity)]
      push_cast
      rw [← zpow_natCast (10 : ℚ) (27 - a - k).toNat,
        ← zpow_natCast (10 : ℚ) k, Int.toNat_of_nonneg he, mul_assoc, mul_assoc,
        ← zpow_add₀ h10, ← zpow_add₀ h10,
        show 27 - a - (k : ℤ) + (a - 27 + k) = 0 from by ring, zpow_zero,
        mul_one]
    unfold ctxRound
    rw [if_neg h0, ha, harg, roundHalfEven_intCast, ← harg]
    exact div_mul_cancel₀ q (zpow_ne_zero _ h10)

theorem int_log_abs_eq_of_bounds {q : ℚ} {a : ℤ} (h1 : (10 : ℚ) ^ a ≤ |q|)
    (h2 : |q| < 10 ^ (a + 1)) : Int.log 10 |q| = a := by
  have hq0 : (0 : ℚ) < |q| := lt_of_lt_of_le (by positivity) h1
  have hge : a ≤ Int.log 10 |q| :=
    (Int.zpow_le_iff_le_log (by norm_num) hq0).mp h1
  have hlt : Int.log 10 |q| < a + 1 :=
    (Int.lt_zpow_iff_log_lt (by norm_num) hq0).mp h2
  omega

theorem ctxRound_ten_pow_thirty_add :
    ctxRound ((10 : ℚ) ^ 30 + 123456789 / 10 ^ 9) = 10 ^ 30 := by
  set v : ℚ := (10 : ℚ) ^ 30 + 123456789 / 10 ^ 9 with hv
  have hvpos : (0 : ℚ) < v := by rw [hv]; positivity
  have hne : v ≠ 0 := ne_of_gt hvpos
  have hlog : Int.log 10 |v| = 30 := by
    apply int_log_abs_eq_of_bounds
    · rw [abs_of_pos hvpos, hv,
        show ((10 : ℚ) ^ (30 : ℤ)) = 10 ^ (30 : ℕ) from by norm_num]
      have hfr : (0 : ℚ) ≤ 123456789 / 10 ^ 9 := by positivity
      linarith
    · rw [abs_of_pos hvpos, hv,
        show ((10 : ℚ) ^ ((30 : ℤ) + 1)) = 10 ^ (31 : ℕ) from by norm_num]
      have hfr : (123456789 : ℚ) / 10 ^ 9 < 1 := by norm_num
      have h30 : (10 : ℚ) ^ (30 : ℕ) + 1 ≤ 10 ^ (31 : ℕ) := by norm_num
      linarith
  have hx : v / (10 : ℚ) ^ (3 : ℕ) = (10 ^ 39 + 123456789) / 10 ^ 12 := by
    rw [hv]
    field_simp
    ring
  have hfloor : ⌊((10 : ℚ) ^ 39 + 123456789) / 10 ^ 12⌋ = (10 ^ 27 : ℤ) := by
    rw [Int.floor_eq_iff]
    constructor
    · rw [le_div_iff₀ (by norm_num)]
      push_cast
      norm_num
    · rw [div_lt_iff₀ (by norm_num)]
      push_cast
      norm_num
  have hrhe : roundHalfEven (((10 : ℚ) ^ 39 + 123456789) / 10 ^ 12)
      = 10 ^ 27 := by
    unfold roundHalfEven
    rw [hfloor, if_pos]
    push_cast
    rw [sub_lt_iff_lt_add, div_lt_iff₀ (by norm_num)]
    norm_num
  unfold ctxRound
  rw [if_neg hne, hlog,
    show (30 : ℤ) - 27 = ((3 : ℕ) : ℤ) from by norm_num,
    zpow_natCast, hx, hrhe]
  push_cast
  norm_num

/-- Claim C8, counterexample: the nine-fractional-digit decimal
`10^30 + 0.123456789` converts to fixed-point `(10^30, 123456789)` (the
source's float sanity assert passes there), but converting back loses
the fraction to the 28-significant-digit Decimal context — the result is
`10^30`, a round-trip error of `0.123456789`, far above `1e-10`. -/
theorem quotation_roundtrip_context_rounding_fails :
    decimalToQuotation ((10 ^ 39 + 123456789 : ℚ) / 10 ^ 9)
      = some ⟨10 ^ 30, 123456789⟩ ∧
    quotationToDecimal ⟨10 ^ 30, 123456789⟩ = 10 ^ 30 ∧
    ¬ (|quotationToDecimal ⟨10 ^ 30, 123456789⟩
          - (10 ^ 39 + 123456789 : ℚ) / 10 ^ 9| < 1 / 10 ^ 10) := by
  have hsplit : ((10 : ℚ) ^ 39 + 123456789) / 10 ^ 9
      = 10 ^ 30 + 123456789 / 10 ^ 9 := by
    rw [add_div]
    norm_num
  have hinner : ctxRound ((123456789 : ℚ) / 10 ^ 9) = 123456789 / 10 ^ 9 :=
    ctxRound_eq_self
      (show ((123456789 : ℚ) / 10 ^ 9) * 10 ^ 9 = ((123456789 : ℤ) : ℚ) from by
        push_cast
        field_simp)
      (by norm_num)
  have hback : quotationToDecimal ⟨10 ^ 30, 123456789⟩ = 10 ^ 30 := by
    unfold quotationToDecimal
    rw [show (((10 ^ 30 : ℤ) : ℚ)) = (10 : ℚ) ^ 30 from by push_cast; norm_num,
      show (((123456789 : ℤ) : ℚ)) = (123456789 : ℚ) from by norm_num,
      hinner, ctxRound_ten_pow_thirty_add]
  refine ⟨?_, hback, ?_⟩
  · have hunits : intTrunc (((10 : ℚ) ^ 39 + 123456789) / 10 ^ 9)
        = 10 ^ 30 := by
      rw [intTrunc_of_nonneg (by positivity), Int.floor_eq_iff]
      constructor
      · rw [hsplit]
        push_cast
        have hfr : (0 : ℚ) ≤ 123456789 / 10 ^ 9 := by positivity
        linarith
      · rw [hsplit]
        push_cast
        have hfr : (123456789 : ℚ) / 10 ^ 9 < 1 := by norm_num
        linarith
    have hfrac : ((10 : ℚ) ^ 39 + 123456789) / 10 ^ 9 - ((10 ^ 30 : ℤ) : ℚ)
        = 123456789 / 10 ^ 9 := by
      rw [hsplit]
      push_cast
      ring
    unfold decimalToQuotation
    rw [if_pos]
    · rw [hunits, hfrac, hinner,
        div_mul_cancel₀ _ (show (10 : ℚ) ^ 9 ≠ 0 from by norm_num),
        show ctxRound ((123456789 : ℚ)) = ((123456789 : ℤ) : ℚ) from
          ctxRound_eq_self (show (123456789 : ℚ) * 10 ^ 0
            = ((123456789 : ℤ) : ℚ) from by norm_num) (by norm_num),
        intTrunc_intCast]
    · rw [abs_of_nonneg (by positivity), floatOverflowBound]
      norm_num
  · rw [hback, hsplit,
      show (10 : ℚ) ^ 30 - (10 ^ 30 + 123456789 / 10 ^ 9)
        = -(123456789 / 10 ^ 9) from by ring, abs_neg,
      abs_of_nonneg (by positivity)]
    norm_num

/-- Claim C8, amended: for every decimal value with at most 9 fractional
digits (of the form `n / 10^9`) and magnitude below `2^53` (≈ 9.0·10^15,
where the float sanity assert of `decimal_to_quotation` always passes
and the 28-digit Decimal context never rounds), the conversion to the
broker's fixed-point representation succeeds and converting back
recovers the original value exactly — in particular within `1e-10`. -/
theorem quotation_roundtrip (v : ℚ) (n : ℤ) (h : v = (n : ℚ) / 10 ^ 9)
    (hv : |v| < 2 ^ 53) :
    ∃ q, decimalToQuotation v = some q ∧
      |quotationToDecimal q - v| < 1 / 10 ^ 10 := by
  have h9 : (10 : ℚ) ^ 9 ≠ 0 := by norm_num
  have hvn : v * 10 ^ 9 = (n : ℚ) := by
    rw [h, div_mul_cancel₀ _ h9]
  have hnabs : |(n : ℚ)| < 10 ^ 28 := by
    rw [← hvn, abs_mul, abs_of_pos (show (0 : ℚ) < 10 ^ 9 from by norm_num)]
    calc |v| * 10 ^ 9 < 2 ^ 53 * 10 ^ 9 :=
          mul_lt_mul_of_pos_right hv (by norm_num)
    _ < 10 ^ 28 := by norm_num
  have hn28 : |n| < 10 ^ 28 := by exact_mod_cast hnabs
  set u : ℤ := intTrunc v with hu
  set m : ℤ := n - u * 10 ^ 9 with hmdef
  have hfrac : (v - (u : ℚ)) * 10 ^ 9 = ((m : ℤ) : ℚ) := by
    rw [hmdef, sub_mul, hvn]
    push_cast
    ring
  have hmabs : |(m : ℚ)| < 10 ^ 9 := by
    rw [← hfrac, abs_mul, abs_of_pos (show (0 : ℚ) < 10 ^ 9 from by norm_num)]
    have h1 : |v - (u : ℚ)| < 1 := by
      rw [hu]
      exact abs_sub_intTrunc_lt_one v
    calc |v - (u : ℚ)| * 10 ^ 9 < 1 * 10 ^ 9 :=
          mul_lt_mul_of_pos_right h1 (by norm_num)
    _ = 10 ^ 9 := by norm_num
  have hm9 : |m| < 10 ^ 9 := by exact_mod_cast hmabs
  have hc1 : ctxRound (v - (u : ℚ)) = v - (u : ℚ) :=
    ctxRound_eq_self hfrac (lt_trans hm9 (by norm_num))
  have hc2 : ctxRound ((m : ℚ)) = (m : ℚ) :=
    ctxRound_eq_self (show ((m : ℤ) : ℚ) * 10 ^ 0 = ((m : ℤ) : ℚ) from by
      norm_num) (lt_trans hm9 (by norm_num))
  have hcq : decimalToQuotation v = some ⟨u, m⟩ := by
    unfold decimalToQuotation
    rw [if_pos]
    · rw [← hu, hc1, hfrac, hc2, intTrunc_intCast]
    · calc |v| < 2 ^ 53 := hv
      _ < floatOverflowBound := by rw [floatOverflowBound]; norm_num
  refine ⟨⟨u, m⟩, hcq, ?_⟩
  have hdiv : ctxRound ((m : ℚ) / 10 ^ 9) = (m : ℚ) / 10 ^ 9 :=
    ctxRound_eq_self (show ((m : ℚ) / 10 ^ 9) * 10 ^ 9 = ((m : ℤ) : ℚ) from by
      rw [div_mul_cancel₀ _ h9]) (lt_trans hm9 (by norm_num))
  have hsum : (u : ℚ) + (m : ℚ) / 10 ^ 9 = v := by
    have hd : (m : ℚ) / 10 ^ 9 = v - (u : ℚ) := by
      rw [div_eq_iff h9]
      exact hfrac.symm
    rw [hd]
    ring
  have hfull : quotationToDecimal ⟨u, m⟩ = v := by
    unfold quotationToDecimal
    rw [hdiv, hsum]
    exact ctxRound_eq_self hvn hn28
  rw [hfull]
  simp only [sub_self, abs_zero]
  norm_num

/-- Concrete instance of `quotation_roundtrip` at `v = 3.14`. -/
theorem quotation_roundtrip_witness :
    ∃ q, decimalToQuotation ((157 : ℚ) / 50) = some q ∧
      |quotationToDecimal q - (157 : ℚ) / 50| < 1 / 10 ^ 10 :=
  quotation_roundtrip ((157 : ℚ) / 50) 3140000000 (by norm_num)
    (by rw [abs_of_pos (show (0 : ℚ) < 157 / 50 from by norm_num)]; norm_num)

theorem find?_of_filter_singleton {α : Type} {p : α → Bool} {l : List α}
    {a : α} (h : l.filter p = [a]) : l.find? p = some a := by
  induction l with
  | nil => simp at h
  | cons x xs ih =>
    by_cases hx : p x
    · rw [List.filter_cons_of_pos hx] at h
      obtain ⟨rfl, -⟩ : x = a ∧ xs.filter p = [] := by
        simpa using h
      exact List.find?_cons_of_pos _ hx
    · rw [List.filter_cons_of_neg hx] at h
      rw [List.find?_cons_of_neg _ hx]
      exact ih h

theorem updFirst_decomp {α : Type} {p : α → Bool} (f : α → α) {l : List α}
    {a : α} (h : l.find? p = some a) :
    ∃ l₁ l₂, l = l₁ ++ a :: l₂ ∧ (∀ x ∈ l₁, p x = false) ∧ p a = true ∧
      updFirst p f l = l₁ ++ f a :: l₂ := by
  induction l with
  | nil => simp at h
  | cons x xs ih =>
    by_cases hx : p x
    · rw [List.find?_cons_of_pos _ hx] at h
      obtain rfl : x = a := by simpa using h
      exact ⟨[], xs, by simp, by simp, hx, by simp [updFirst, hx]⟩
    · rw [List.find?_cons_of_neg _ hx] at h
      obtain ⟨l₁, l₂, rfl, h1, h2, h3⟩ := ih h
      refine ⟨x :: l₁, l₂, rfl, ?_, h2, ?_⟩
      · intro y hy
        rcases List.mem_cons.mp hy with rfl | hy
        · simpa using hx
        · exact h1 y hy
      · simp [updFirst, hx, h3]

theorem mem_updFirst {α : Type} {p : α → Bool} {f : α → α} {l : List α}
    {b : α} (h : b ∈ updFirst p f l) : b ∈ l ∨ ∃ a, a ∈ l ∧ b = f a := by
  induction l with
  | nil => simp [updFirst] at h
  | cons x xs ih =>
    simp only [updFirst] at h
    by_cases hx : p x
    · rw [if_pos hx] at h
      rcases List.mem_cons.mp h with rfl | h
      · exact Or.inr ⟨x, List.mem_cons_self x xs, rfl⟩
      · exact Or.inl (List.mem_cons_of_mem _ h)
    · rw [if_neg hx] at h
      rcases List.mem_cons.mp h with rfl | h
      · exact Or.inl (List.mem_cons_self b xs)
      · rcases ih h with h' | ⟨a, ha, rfl⟩
        · exact Or.inl (List.mem_cons_of_mem _ h')
        · exact Or.inr ⟨a, List.mem_cons_of_mem _ ha, rfl⟩

theorem sortedSide_updFirst {p : Order → Bool} {f : Order → Order}
    (hkey : ∀ a, orderKey (f a) = orderKey a) {l : List Order}
    (h : sortedSide l) : sortedSide (updFirst p f l) := by
  induction l with
  | nil => simpa [updFirst] using h
  | cons x xs ih =>
    rcases List.pairwise_cons.mp h with ⟨hx, hxs⟩
    simp only [updFirst]
    by_cases hpx : p x
    · rw [if_pos hpx]
      exact List.pairwise_cons.mpr
        ⟨fun b hb => by rw [hkey]; exact hx b hb, hxs⟩
    · rw [if_neg hpx]
      refine List.pairwise_cons.mpr ⟨fun b hb => ?_, ih hxs⟩
      rcases mem_updFirst hb with h' | ⟨a, ha, rfl⟩
      · exact hx b h'
      · rw [hkey]
        exact hx a ha

theorem sortedSide_set {l : List Order} {i : ℕ} {o o' : Order}
    (hget : l[i]? = some o) (hkey : orderKey o' = orderKey o)
    (h : sortedSide l) : sortedSide (l.set i o') := by
  induction l generalizing i with
  | nil => simp at hget
  | cons x xs ih =>
    rcases List.pairwise_cons.mp h with ⟨hx, hxs⟩
    cases i with
    | zero =>
      obtain rfl : x = o := by simpa using hget
      refine List.pairwise_cons.mpr ⟨fun b hb => ?_, hxs⟩
      rw [hkey]
      exact hx b (by simpa using hb)
    | succ j =>
      have hget' : xs[j]? = some o := by simpa using hget
      refine List.pairwise_cons.mpr ⟨fun b hb => ?_, ih hget' hxs⟩
      rcases List.mem_or_eq_of_mem_set (by simpa using hb) with h' | rfl
      · exact hx b h'
      · rw [hkey]
        exact hx o (List.getElem?_mem hget')

theorem orderKeyGe_trans :
    ∀ a b c : Order, orderKeyGe a b → orderKeyGe b c → orderKeyGe a c := by
  intro a b c h1 h2
  exact decide_eq_true
    (le_trans (of_decide_eq_true h2) (of_decide_eq_true h1))

theorem orderKeyGe_total : ∀ a b : Order, orderKeyGe a b || orderKeyGe b a := by
  intro a b
  rcases le_total (orderKey a) (orderKey b) with h | h <;>
    simp [orderKeyGe, h]

theorem sortedSide_insertOrder (l : List Order) (o : Order) :
    sortedSide (insertOrder l o) :=
  (List.sorted_mergeSort orderKeyGe_trans orderKeyGe_total (l ++ [o])).imp
    (fun h => of_decide_eq_true h)

theorem sortedLedger_setSideList {L : Orders} (hL : sortedLedger L)
    (s : Side) {l : List Order} (hl : sortedSide l) :
    sortedLedger (setSideList L s l) := by
  cases s
  · exact ⟨hl, hL.2⟩
  · exact ⟨hL.1, hl⟩

/-- Claim C7: `purge_terminal` (`clear_inactive_orders`) is idempotent:
applying it twice in a row yields the same ledger — the same per-side
order sequences, hence the same active-order set — as applying it once. -/
theorem purge_terminal_idempotent (L : Orders) :
    clearInactiveOrders (clearInactiveOrders L) = clearInactiveOrders L := by
  simp [clearInactiveOrders, List.filter_filter]

/-- Claim C9: Configuration errors are asserted at startup: subscribing
with a depth outside {1, 10, 20, 30, 40, 50} fails the assertion in
`MarketManager.subscribe`, and a starting position outside {0, 1} fails
the assertion in `Strategy.__init__`; under the precondition the initial
action is BUY for position 0 and SELL for position 1. -/
theorem startup_config_asserts :
    (∀ d : ℕ, (marketSubscribe d).isSome = true ↔
      (d = 1 ∨ d = 10 ∨ d = 20 ∨ d = 30 ∨ d = 40 ∨ d = 50)) ∧
    (∀ q : ℤ, (strategyInitAction q).isSome = true ↔ (q = 0 ∨ q = 1)) ∧
    strategyInitAction 0 = some StratAction.BUY ∧
    strategyInitAction 1 = some StratAction.SELL := by
  refine ⟨fun d => ?_, fun q => ?_, by decide, by decide⟩
  · by_cases h : d ∈ ([1, 10, 20, 30, 40, 50] : List ℕ) <;>
      · simp only [List.mem_cons, List.not_mem_nil, or_false] at h
        simp [marketSubscribe, h]
  · by_cases h : q ∈ ([0, 1] : List ℤ) <;>
      · simp only [List.mem_cons, List.not_mem_nil, or_false] at h
        simp [strategyInitAction, h]

/-- Claim C2: On an order event: for FILLED or CANCELLED, the strategy
recomputes its side from the position (BUY when the position is 0, SELL
otherwise), posts exactly one single-lot order at the best bid (BUY)
resp. best ask (SELL), and ends in WAIT; for PENDING or OPEN it changes
nothing and posts nothing. -/
theorem on_order_event_behaviour (action : StratAction) (posQty : ℤ)
    (ob : OrderBook) (ev : OrderEvent) (px : ℚ)
    (hpx : bestPx (if posQty = 0 then Side.BUY else Side.SELL) ob = some px) :
    (ev.event_type = OrderEventType.FILLED ∨
        ev.event_type = OrderEventType.CANCELLED →
      onOrderEvent action posQty ob ev =
        some (StratAction.WAIT,
          [Request.post
            { qty := 1, px := px,
              side := if posQty = 0 then Side.BUY else Side.SELL }])) ∧
    (ev.event_type = OrderEventType.PENDING ∨
        ev.event_type = OrderEventType.OPEN →
      onOrderEvent action posQty ob ev = some (action, [])) := by
  constructor
  · intro h
    unfold onOrderEvent
    rw [if_pos h]
    unfold buyOrSellAction
    by_cases hq : posQty = 0 <;>
      simp only [hq, if_pos, if_neg, if_true, if_false] at hpx ⊢ <;>
      simp [StratAction.getSide, hpx, Option.bind]
  · intro h
    have hne : ¬(ev.event_type = OrderEventType.FILLED ∨
        ev.event_type = OrderEventType.CANCELLED) := by
      rcases h with h | h <;> simp [h]
    unfold onOrderEvent
    rw [if_neg hne]

/-- Concrete instance of `on_order_event_behaviour`: a FILLED event with
position 1 produces a single SELL order at the best ask and WAIT. -/
theorem on_order_event_behaviour_witness :
    onOrderEvent StratAction.WAIT 1 ⟨[⟨100, 1⟩], [⟨102, 1⟩]⟩
        ⟨OrderEventType.FILLED, ⟨1, 100, Side.BUY, OrderStatus.FILLED, some 5⟩⟩
      = some (StratAction.WAIT, [Request.post ⟨1, 102, Side.SELL⟩]) := by
  have h := (on_order_event_behaviour StratAction.WAIT 1 ⟨[⟨100, 1⟩], [⟨102, 1⟩]⟩
    ⟨OrderEventType.FILLED, ⟨1, 100, Side.BUY, OrderStatus.FILLED, some 5⟩⟩
    102 (by decide)).1 (Or.inl rfl)
  simpa using h

/-- Claim C6: Along the notification path (`_notify_strategy`), the
position is written only when the delivered event is FILLED, and then
exactly by `order.qty * side`; any other event leaves it unchanged. -/
theorem position_written_only_by_fill (action : StratAction) (ob : OrderBook)
    (L : Orders) (posQty : ℤ) (ev : Option OrderEvent)
    (a' : StratAction) (L' : Orders) (p' : ℤ) (reqs : List Request)
    (h : notifyStrategy action ob L posQty ev = some (a', L', p', reqs)) :
    p' = posQty + posDelta ev := by
  cases ev with
  | none =>
    obtain ⟨-, -, h3, -⟩ : a' = action ∧ L' = L ∧ p' = posQty ∧ reqs = [] := by
      simpa [notifyStrategy] using h.symm
    simp [posDelta, h3]
  | some e =>
    simp only [notifyStrategy] at h
    cases hoe : onOrderEvent action
        (if e.event_type = OrderEventType.FILLED then
          updateByFilledOrder posQty e.order
        else posQty) ob e with
    | none => rw [hoe] at h; simp at h
    | some r =>
      rw [hoe] at h
      simp only [Option.map_some', Option.some_inj] at h
      have hp : p' = if e.event_type = OrderEventType.FILLED then
          updateByFilledOrder posQty e.order else posQty := by
        have := congrArg (fun t : StratAction × Orders × ℤ × List Request =>
          t.2.2.1) h
        simpa using this.symm
      by_cases hf : e.event_type = OrderEventType.FILLED <;>
        simp [hp, hf, posDelta, updateByFilledOrder]

/-- Concrete instance of `position_written_only_by_fill`: a FILLED BUY
for one lot moves the position from 0 to 1. -/
theorem position_written_only_by_fill_witness :
    (1 : ℤ) = 0 + posDelta (some
      ⟨OrderEventType.FILLED, ⟨1, 100, Side.BUY, OrderStatus.FILLED, some 3⟩⟩) :=
  position_written_only_by_fill StratAction.WAIT ⟨[⟨100, 1⟩], [⟨101, 2⟩]⟩
    ⟨[⟨1, 100, Side.BUY, OrderStatus.FILLED, some 3⟩], []⟩ 0
    (some ⟨OrderEventType.FILLED, ⟨1, 100, Side.BUY, OrderStatus.FILLED, some 3⟩⟩)
    StratAction.WAIT ⟨[], []⟩ 1 [Request.post ⟨1, 101, Side.SELL⟩] (by decide)

theorem sortedLedger_sideList {L : Orders} (hL : sortedLedger L) (s : Side) :
    sortedSide (sideList L s) := by
  cases s
  · exact hL.1
  · exact hL.2

/-- Claim C4: Every ledger operation — `create_pending`,
`mark_cancel_pending`, `reconcile_post_response`,
`reconcile_cancel_response`, `reconcile_status_poll`, `purge_terminal` —
preserves the invariant that each side's sequence is sorted by
non-increasing `side * price`; inserting a new pending order places it
in this priority order (the stable sort establishes it outright). -/
theorem ledger_ops_preserve_sorted (L : Orders) (req : NewOrder)
    (s : Side) (i : ℕ) (resp : PostOrderResponse) (gresp : OrderState)
    (hL : sortedLedger L) :
    sortedLedger (createPendingOrder L req).2 ∧
    (∀ ev L', processPendingCancel L s i = some (ev, L') → sortedLedger L') ∧
    (∀ ev L', processPostOrderResponse L resp = some (ev, L') →
      sortedLedger L') ∧
    (∀ ev L', processCancelOrderResponse L s i = some (ev, L') →
      sortedLedger L') ∧
    sortedLedger (processGetOrder L gresp).2 ∧
    sortedLedger (clearInactiveOrders L) := by
  refine ⟨?_, ?_, ?_, ?_, ?_, ?_⟩
  · exact sortedLedger_setSideList hL _ (sortedSide_insertOrder _ _)
  · intro ev L' h
    cases hg : (sideList L s)[i]? with
    | none => simp [processPendingCancel, hg] at h
    | some o =>
      simp only [processPendingCancel, hg, Option.some_inj] at h
      injection h with h1 h2
      subst h2
      exact sortedLedger_setSideList hL _ (sortedSide_set hg rfl
        (sortedLedger_sideList hL s))
  · intro ev L' h
    cases hf : (sideList L resp.direction).find?
        (matchPxQty (quotationToDecimal resp.initial_security_price)
          resp.lots_requested) with
    | none => simp [processPostOrderResponse, hf] at h
    | some o =>
      simp only [processPostOrderResponse, hf, Option.some_inj] at h
      injection h with h1 h2
      subst h2
      exact sortedLedger_setSideList hL _
        (@sortedSide_updFirst _ (postUpd resp) (fun a => rfl) _
          (sortedLedger_sideList hL _))
  · intro ev L' h
    cases hg : (sideList L s)[i]? with
    | none => simp [processCancelOrderResponse, hg] at h
    | some o =>
      simp only [processCancelOrderResponse, hg, Option.some_inj] at h
      injection h with h1 h2
      subst h2
      exact sortedLedger_setSideList hL _ (sortedSide_set hg rfl
        (sortedLedger_sideList hL s))
  · cases hf : (sideList L gresp.direction).find? (matchId gresp.order_id) with
    | none => simpa [processGetOrder, hf] using hL
    | some o =>
      by_cases hq : o.qty = gresp.lots_executed
      · simp only [processGetOrder, hf, if_pos hq]
        exact sortedLedger_setSideList hL _
          (@sortedSide_updFirst _ (fun a => { a with status := OrderStatus.FILLED })
            (fun a => rfl) _ (sortedLedger_sideList hL _))
      · simpa [processGetOrder, hf, hq] using hL
  · exact ⟨hL.1.filter _, hL.2.filter _⟩

/-- Concrete instance of `ledger_ops_preserve_sorted`: inserting the
first pending order into an empty ledger yields a sorted ledger. -/
theorem ledger_ops_preserve_sorted_witness :
    sortedLedger (createPendingOrder ⟨[], []⟩ ⟨1, 100, Side.BUY⟩).2 :=
  (ledger_ops_preserve_sorted ⟨[], []⟩ ⟨1, 100, Side.BUY⟩ Side.BUY 0
    ⟨Side.BUY, ⟨100, 0⟩, 1, 1, 7⟩ ⟨Side.BUY, 7, 1⟩
    ⟨List.Pairwise.nil, List.Pairwise.nil⟩).1

theorem quotationToDecimal_hundred : quotationToDecimal ⟨100, 0⟩ = (100 : ℚ) := by
  have h0 : ((0 : ℤ) : ℚ) / 10 ^ 9 = 0 := by norm_num
  unfold quotationToDecimal
  rw [h0, ctxRound_zero, add_zero]
  push_cast
  exact ctxRound_eq_self
    (show (100 : ℚ) * 10 ^ 0 = ((100 : ℤ) : ℚ) from by norm_num) (by norm_num)

/-- Claim C1, counterexample: A BUY side holding a FILLED order and, after
it, the unique PENDING order, both at price 100 / quantity 1: the post
response (fully executed, broker id 7) is reconciled into the *FILLED*
order — the first key match wins, the status is not part of the key — and
the PENDING order keeps status PENDING and id `none`, contrary to the
claim that the broker id is assigned to the PENDING order. -/
theorem post_response_pending_bypassed :
    processPostOrderResponse
      ⟨[⟨1, 100, Side.BUY, OrderStatus.FILLED, some 3⟩,
        ⟨1, 100, Side.BUY, OrderStatus.PENDING, none⟩], []⟩
      ⟨Side.BUY, ⟨100, 0⟩, 1, 1, 7⟩
    = some (⟨OrderEventType.FILLED, ⟨1, 100, Side.BUY, OrderStatus.FILLED, some 7⟩⟩,
        ⟨[⟨1, 100, Side.BUY, OrderStatus.FILLED, some 7⟩,
          ⟨1, 100, Side.BUY, OrderStatus.PENDING, none⟩], []⟩) := by
  simp only [processPostOrderResponse, quotationToDecimal_hundred]
  decide

/-- Claim C1, amended: If exactly one order on the response's side matches
the response's price and requested quantity — and that order is PENDING —
then `process_post_order_response` assigns the broker id to that order,
sets it FILLED when `lots_executed` equals the full requested quantity
and OPEN otherwise, and returns an event of the corresponding kind
carrying that order, updated in place in the side sequence. -/
theorem post_response_unique_match (L : Orders) (resp : PostOrderResponse)
    (o : Order)
    (hu : (sideList L resp.direction).filter
        (matchPxQty (quotationToDecimal resp.initial_security_price)
          resp.lots_requested) = [o])
    (hpend : o.status = OrderStatus.PENDING) :
    ∃ l₁ l₂,
      sideList L resp.direction = l₁ ++ o :: l₂ ∧
      processPostOrderResponse L resp =
        some (⟨if o.qty = resp.lots_executed then OrderEventType.FILLED
               else OrderEventType.OPEN,
               postUpd resp o⟩,
              setSideList L resp.direction (l₁ ++ postUpd resp o :: l₂)) ∧
      (postUpd resp o).id = some resp.order_id ∧
      (postUpd resp o).status =
        (if o.qty = resp.lots_executed then OrderStatus.FILLED
         else OrderStatus.OPEN) := by
  have hfind := find?_of_filter_singleton hu
  obtain ⟨l₁, l₂, hdec, -, -, h3⟩ := updFirst_decomp (postUpd resp) hfind
  refine ⟨l₁, l₂, hdec, ?_, rfl, rfl⟩
  have hev : (if (postUpd resp o).status = OrderStatus.OPEN then
        OrderEventType.OPEN else OrderEventType.FILLED)
      = (if o.qty = resp.lots_executed then OrderEventType.FILLED
         else OrderEventType.OPEN) := by
    by_cases hq : o.qty = resp.lots_executed <;> simp [postUpd, hq]
  simp only [processPostOrderResponse, hfind, h3, hev]

/-- Concrete instance of `post_response_unique_match`: the single PENDING
BUY order at 100 is filled in full and gets broker id 7. -/
theorem post_response_unique_match_witness :
    ∃ l₁ l₂,
      sideList ⟨[⟨1, 100, Side.BUY, OrderStatus.PENDING, none⟩], []⟩ Side.BUY
        = l₁ ++ ⟨1, 100, Side.BUY, OrderStatus.PENDING, none⟩ :: l₂ ∧
      processPostOrderResponse
          ⟨[⟨1, 100, Side.BUY, OrderStatus.PENDING, none⟩], []⟩
          ⟨Side.BUY, ⟨100, 0⟩, 1, 1, 7⟩
        = some (⟨OrderEventType.FILLED,
                 ⟨1, 100, Side.BUY, OrderStatus.FILLED, some 7⟩⟩,
            setSideList ⟨[⟨1, 100, Side.BUY, OrderStatus.PENDING, none⟩], []⟩
              Side.BUY
              (l₁ ++ ⟨1, 100, Side.BUY, OrderStatus.FILLED, some 7⟩ :: l₂)) ∧
      (⟨1, 100, Side.BUY, OrderStatus.FILLED, some 7⟩ : Order).id = some 7 ∧
      (⟨1, 100, Side.BUY, OrderStatus.FILLED, some 7⟩ : Order).status
        = OrderStatus.FILLED := by
  exact post_response_unique_match
    ⟨[⟨1, 100, Side.BUY, OrderStatus.PENDING, none⟩], []⟩
    ⟨Side.BUY, ⟨100, 0⟩, 1, 1, 7⟩
    ⟨1, 100, Side.BUY, OrderStatus.PENDING, none⟩
    (by simp only [quotationToDecimal_hundred]; decide) rfl

/-- Claim C10: The post-response lookup matches on side, price and
requested quantity only: a non-PENDING order with a matching key is
selected and mutated (here a CANCELLED order is revived to OPEN and
given broker id 9); and when no order on the side matches, the function
propagates the uncaught exception (`none`) instead of logging a
no-event. -/
theorem post_lookup_ignores_status_and_raises :
    (processPostOrderResponse
        ⟨[⟨1, 100, Side.BUY, OrderStatus.CANCELLED, some 3⟩], []⟩
        ⟨Side.BUY, ⟨100, 0⟩, 1, 0, 9⟩
      = some (⟨OrderEventType.OPEN, ⟨1, 100, Side.BUY, OrderStatus.OPEN, some 9⟩⟩,
          ⟨[⟨1, 100, Side.BUY, OrderStatus.OPEN, some 9⟩], []⟩)) ∧
    (∀ (L : Orders) (resp : PostOrderResponse),
      (∀ o ∈ sideList L resp.direction,
        matchPxQty (quotationToDecimal resp.initial_security_price)
          resp.lots_requested o = false) →
      processPostOrderResponse L resp = none) := by
  constructor
  · simp only [processPostOrderResponse, quotationToDecimal_hundred]
    decide
  · intro L resp hnone
    have hfind : (sideList L resp.direction).find?
        (matchPxQty (quotationToDecimal resp.initial_security_price)
          resp.lots_requested) = none :=
      List.find?_eq_none.mpr (fun x hx => by simp [hnone x hx])
    simp only [processPostOrderResponse, hfind]

/-- Concrete instance of the second part of
`post_lookup_ignores_status_and_raises`: an empty ledger makes the
reconciliation raise. -/
theorem post_lookup_ignores_status_and_raises_witness :
    processPostOrderResponse ⟨[], []⟩ ⟨Side.BUY, ⟨100, 0⟩, 1, 1, 7⟩ = none :=
  post_lookup_ignores_status_and_raises.2 ⟨[], []⟩ ⟨Side.BUY, ⟨100, 0⟩, 1, 1, 7⟩
    (by intro o ho; simp [sideList] at ho)

/-- Claim C3: Status-poll reconciliation: an unmatched broker id yields no
event and an unchanged ledger (the lookup failure is caught, not
raised); a matched and fully executed order is set FILLED in place and a
FILLED event is returned; a matched but not fully executed order yields
no event and no mutation at all. -/
theorem status_poll_reconciliation (L : Orders) (resp : OrderState)
    (o : Order) :
    ((∀ x ∈ sideList L resp.direction, matchId resp.order_id x = false) →
      processGetOrder L resp = (none, L)) ∧
    ((sideList L resp.direction).find? (matchId resp.order_id) = some o →
      o.qty = resp.lots_executed →
      ∃ l₁ l₂, sideList L resp.direction = l₁ ++ o :: l₂ ∧
        processGetOrder L resp =
          (some ⟨OrderEventType.FILLED, { o with status := OrderStatus.FILLED }⟩,
           setSideList L resp.direction
             (l₁ ++ { o with status := OrderStatus.FILLED } :: l₂))) ∧
    ((sideList L resp.direction).find? (matchId resp.order_id) = some o →
      o.qty ≠ resp.lots_executed →
      processGetOrder L resp = (none, L)) := by
  refine ⟨?_, ?_, ?_⟩
  · intro hnone
    have hfind : (sideList L resp.direction).find? (matchId resp.order_id)
        = none :=
      List.find?_eq_none.mpr (fun x hx => by simp [hnone x hx])
    simp only [processGetOrder, hfind]
  · intro hfind hq
    obtain ⟨l₁, l₂, hdec, -, -, h3⟩ :=
      updFirst_decomp (fun a => { a with status := OrderStatus.FILLED }) hfind
    exact ⟨l₁, l₂, hdec, by simp only [processGetOrder, hfind, if_pos hq, h3]⟩
  · intro hfind hq
    simp only [processGetOrder, hfind, if_neg hq]

/-- Concrete instance of `status_poll_reconciliation`: the OPEN BUY order
with broker id 5 is polled as fully executed and becomes FILLED. -/
theorem status_poll_reconciliation_witness :
    ∃ l₁ l₂,
      sideList ⟨[⟨1, 100, Side.BUY, OrderStatus.OPEN, some 5⟩], []⟩ Side.BUY
        = l₁ ++ ⟨1, 100, Side.BUY, OrderStatus.OPEN, some 5⟩ :: l₂ ∧
      processGetOrder ⟨[⟨1, 100, Side.BUY, OrderStatus.OPEN, some 5⟩], []⟩
          ⟨Side.BUY, 5, 1⟩
        = (some ⟨OrderEventType.FILLED,
                 ⟨1, 100, Side.BUY, OrderStatus.FILLED, some 5⟩⟩,
           setSideList ⟨[⟨1, 100, Side.BUY, OrderStatus.OPEN, some 5⟩], []⟩
             Side.BUY
             (l₁ ++ ⟨1, 100, Side.BUY, OrderStatus.FILLED, some 5⟩ :: l₂)) := by
  exact (status_poll_reconciliation
    ⟨[⟨1, 100, Side.BUY, OrderStatus.OPEN, some 5⟩], []⟩ ⟨Side.BUY, 5, 1⟩
    ⟨1, 100, Side.BUY, OrderStatus.OPEN, some 5⟩).2.1 (by decide) rfl

/-- Claim C5, counterexample: State WAIT, no pending order, exactly one
active (OPEN) BUY order at 101 while the best bid is 100: the order's
price is *not* at the best bid, yet no cancel is requested — the source
only cancels when `side * px < side * ob_px`, i.e. when the price is
strictly worse than the best, refuting the claimed "if and only if not
at the best". -/
theorem orderbook_update_better_priced_no_cancel :
    onOrderbookUpdate StratAction.WAIT 0
      ⟨[⟨1, 101, Side.BUY, OrderStatus.OPEN, some 4⟩], []⟩
      ⟨[⟨100, 5⟩], [⟨102, 5⟩]⟩
    = some (StratAction.WAIT, []) ∧
    bestPx Side.BUY ⟨[⟨100, 5⟩], [⟨102, 5⟩]⟩ = some 100 ∧
    (101 : ℚ) ≠ 100 := by
  refine ⟨?_, rfl, by norm_num⟩
  have hlt : ¬((sideSign Side.BUY : ℚ) * 101 < (sideSign Side.BUY : ℚ) * 100) := by
    norm_num [sideSign]
  simp [onOrderbookUpdate, isAnyPending, getAllOrders, possibleCancelAction,
    bestPx, hlt]

/-- Claim C5, amended: On an order-book update: if any ledger order is
PENDING, no request is issued and the state is unchanged; otherwise, in
state WAIT with exactly one order in the ledger (and it is active/OPEN),
a cancel of that order is requested if and only if
`side * px < side * best_px` — the order's price is strictly worse than
the current best on its side — and the state remains WAIT. -/
theorem orderbook_update_cancel_logic (action : StratAction) (posQty : ℤ)
    (L : Orders) (ob : OrderBook) (o : Order) (obPx : ℚ) :
    (isAnyPending L = true →
      onOrderbookUpdate action posQty L ob = some (action, [])) ∧
    (isAnyPending L = false → getAllOrders L = [o] →
      o.status = OrderStatus.OPEN → bestPx o.side ob = some obPx →
      onOrderbookUpdate StratAction.WAIT posQty L ob =
        some (StratAction.WAIT,
          if (sideSign o.side : ℚ) * o.px < (sideSign o.side : ℚ) * obPx then
            [Request.cancel o]
          else [])) := by
  constructor
  · intro h
    simp [onOrderbookUpdate, h]
  · intro hp h1 _ hbest
    simp only [onOrderbookUpdate, hp, Bool.false_eq_true, if_false,
      possibleCancelAction, h1, hbest, Option.map_some']

/-- Concrete instance of `orderbook_update_cancel_logic`: the single
OPEN BUY order at 100 is cancelled once the best bid moves to 101. -/
theorem orderbook_update_cancel_logic_witness :
    onOrderbookUpdate StratAction.WAIT 0
      ⟨[⟨1, 100, Side.BUY, OrderStatus.OPEN, some 4⟩], []⟩
      ⟨[⟨101, 5⟩], [⟨102, 5⟩]⟩
    = some (StratAction.WAIT,
        [Request.cancel ⟨1, 100, Side.BUY, OrderStatus.OPEN, some 4⟩]) := by
  have h := (orderbook_update_cancel_logic StratAction.WAIT 0
    ⟨[⟨1, 100, Side.BUY, OrderStatus.OPEN, some 4⟩], []⟩
    ⟨[⟨101, 5⟩], [⟨102, 5⟩]⟩
    ⟨1, 100, Side.BUY, OrderStatus.OPEN, some 4⟩ 101).2
    (by decide) rfl rfl rfl
  norm_num [sideSign] at h
  exact h
